import Mathlib

/-!
Verification of the parametric shelving-unit configurator.

The definitions below are a shallow embedding of the TypeScript source:
numbers are modelled as exact rationals (the geometry and drag logic) or
reals (the dimension-annotation builder, which uses square roots), React
state updates become explicit state passing, and the JS `Record<string,
number>` drag-session map becomes a function `String → Option ℚ` with JS
truthiness (`undefined` and `0` are falsy) modelled explicitly.
-/

namespace Shelving

/-- A shelf: `{ id, position (0-1 fraction of height), divisions }`. -/
structure Shelf where
  id : String
  position : ℚ
  divisions : ℕ
  deriving DecidableEq

/-- A column: `{ id, position (0-1 fraction of width), divisions }`. -/
structure Column where
  id : String
  position : ℚ
  divisions : ℕ
  deriving DecidableEq

/-- The `ShelvingUnitState` record of the source. -/
structure ShelvingUnitState where
  width : ℚ
  height : ℚ
  depth : ℚ
  thickness : ℚ
  shelves : List Shelf
  columns : List Column
  showWireframe : Bool
  showDimensions : Bool
  viewMode : String
  material : String
  deriving DecidableEq

/-- The `dragStartPosition` map (`Record<string, number>`): a partial map
from element id to the position recorded when its drag started. -/
abbrev DragSession := String → Option ℚ

/-- JS truthiness of `map[id]` : `undefined` and `0` are falsy. -/
def jsTruthy (v : Option ℚ) : Bool :=
  match v with
  | none => false
  | some x => if x = 0 then false else true

/-- JS `map[id] || fallback` : yields `fallback` when the entry is
`undefined` or `0`. -/
def jsOrElse (v : Option ℚ) (fallback : ℚ) : ℚ :=
  match v with
  | none => fallback
  | some x => if x = 0 then fallback else x

/-- The cascading drag-distance-to-division computation shared verbatim by
`handleShelfDrag` and `handleColumnDrag`:
`let newDivisions = 1; if (d > 0.05) 2; if (d > 0.1) 3; if (d > 0.15) 4;
if (d > 0.2) 5`. -/
def resolveDivisions (dragDistance : ℚ) : ℕ :=
  let n := 1
  let n := if dragDistance > 5/100 then 2 else n
  let n := if dragDistance > 10/100 then 3 else n
  let n := if dragDistance > 15/100 then 4 else n
  let n := if dragDistance > 20/100 then 5 else n
  n

/-- Source expression `unit.shelves.find((s) => s.id === id)?.position || 0` — the value
recorded as the drag baseline (0 when the shelf is absent; a found
position of 0 also yields 0, so `|| 0` is value-preserving there). -/
def shelfBaselineRecord (unit : ShelvingUnitState) (id : String) : ℚ :=
  match unit.shelves.find? (fun s => s.id == id) with
  | some s => s.position
  | none => 0

/-- Source expression `unit.columns.find((c) => c.id === id)?.position || 0`. -/
def columnBaselineRecord (unit : ShelvingUnitState) (id : String) : ℚ :=
  match unit.columns.find? (fun c => c.id == id) with
  | some c => c.position
  | none => 0

/-- Handler `handleShelfDrag(id, normalizedY)`: records the baseline lazily when
`!dragStartPosition[id]`, then maps over the shelves, setting the dragged
shelf's position to the raw `normalizedY` and its divisions from the drag
distance against `dragStartPosition[id] || shelf.position`.  The division
computation reads the pre-update session map, exactly as the React closure
in the source does. -/
def handleShelfDrag (dragStartPosition : DragSession) (unit : ShelvingUnitState)
    (id : String) (normalizedY : ℚ) : DragSession × ShelvingUnitState :=
  let dragStartPosition' :=
    if jsTruthy (dragStartPosition id) then dragStartPosition
    else fun k => if k = id then some (shelfBaselineRecord unit id) else dragStartPosition k
  let shelves' := unit.shelves.map fun shelf =>
    if shelf.id = id then
      let startPos := jsOrElse (dragStartPosition id) shelf.position
      let dragDistance := |normalizedY - startPos|
      { shelf with position := normalizedY, divisions := resolveDivisions dragDistance }
    else shelf
  (dragStartPosition', { unit with shelves := shelves' })

/-- Handler `handleColumnDrag(id, normalizedX)` — the column twin of
`handleShelfDrag`. -/
def handleColumnDrag (dragStartPosition : DragSession) (unit : ShelvingUnitState)
    (id : String) (normalizedX : ℚ) : DragSession × ShelvingUnitState :=
  let dragStartPosition' :=
    if jsTruthy (dragStartPosition id) then dragStartPosition
    else fun k => if k = id then some (columnBaselineRecord unit id) else dragStartPosition k
  let columns' := unit.columns.map fun column =>
    if column.id = id then
      let startPos := jsOrElse (dragStartPosition id) column.position
      let dragDistance := |normalizedX - startPos|
      { column with position := normalizedX, divisions := resolveDivisions dragDistance }
    else column
  (dragStartPosition', { unit with columns := columns' })

/-- Handler `handleDragEnd()`: `setDragStartPosition({})` — clears the session map
and touches nothing else. -/
def handleDragEnd (dragStartPosition : DragSession) (unit : ShelvingUnitState) :
    DragSession × ShelvingUnitState :=
  let _ := dragStartPosition
  ((fun _ => none), unit)

/-- A divider of the divider-based 2D variant. -/
structure Divider where
  id : String
  position : ℚ
  deriving DecidableEq

/-- Handler `handleDividerDrag` of the 2D variant, applied to whichever divider
list (horizontal or vertical) matches the dragged divider's type:
`constrainedPosition = Math.max(0.1, Math.min(0.9, newPosition))`. -/
def handleDividerDrag (dividers : List Divider) (id : String) (newPosition : ℚ) :
    List Divider :=
  let constrainedPosition := max (1/10) (min (9/10) newPosition)
  dividers.map fun d => if d.id = id then { d with position := constrainedPosition } else d

/-- One comparison step of the largest-gap scan: replace the current
`(maxGap, gapPosition)` pair only when the candidate's width is strictly
greater. -/
def stepGap (best cand : ℚ × ℚ) : ℚ × ℚ :=
  if cand.1 > best.1 then cand else best

/-- The interior candidate gaps `(pos[i+1] − pos[i], pos[i] + gap/2)` of the
scan in `addShelf`/`addColumn`, in left-to-right order. -/
def interiorCands (l : List ℚ) : List (ℚ × ℚ) :=
  (l.zip l.tail).map fun p => (p.2 - p.1, p.1 + (p.2 - p.1) / 2)

/-- The new-element position computation shared verbatim by `addShelf` and
`addColumn`: default `(maxGap, gapPosition) = (0, 0.5)`, install the gap to
the first element when `first > 0`, then scan the interior gaps, then the
gap to the far boundary guarded by `last < 1`, each replacing only on a
strictly greater width; return the winning midpoint. -/
def insertPosition (existingPositions : List ℚ) : ℚ :=
  match existingPositions with
  | [] => 1/2
  | first :: rest =>
    let last := (first :: rest).getLast (List.cons_ne_nil first rest)
    let init : ℚ × ℚ := if first > 0 then (first, first / 2) else (0, 1/2)
    let afterInterior := (interiorCands (first :: rest)).foldl stepGap init
    let final :=
      if last < 1 then stepGap afterInterior (1 - last, last + (1 - last) / 2)
      else afterInterior
    final.2

/-- Modelled from the spec's words (§4.3) for comparison with
`insertPosition`: consider the candidate gaps `[0, first]`, each
`[pos[i], pos[i+1]]`, and `[last, 1]` in that order, keep the first-found
maximum (replace only on strictly greater width), and return its
midpoint; `0.5` for the empty list. -/
def specInsertPosition (l : List ℚ) : ℚ :=
  match l with
  | [] => 1/2
  | first :: rest =>
    let last := (first :: rest).getLast (List.cons_ne_nil first rest)
    ((interiorCands (first :: rest) ++ [(1 - last, last + (1 - last) / 2)]).foldl
      stepGap (first, first / 2)).2

/-- Operation `addShelf`: sort the existing shelf positions ascending, pick the
largest-gap midpoint, append a new shelf there with `divisions = 2`. -/
def addShelf (unit : ShelvingUnitState) (newId : String) : ShelvingUnitState :=
  let existingPositions := (unit.shelves.map Shelf.position).insertionSort (· ≤ ·)
  let newPosition := insertPosition existingPositions
  { unit with shelves := unit.shelves ++ [⟨newId, newPosition, 2⟩] }

/-- Operation `addColumn` — the column twin of `addShelf`. -/
def addColumn (unit : ShelvingUnitState) (newId : String) : ShelvingUnitState :=
  let existingPositions := (unit.columns.map Column.position).insertionSort (· ≤ ·)
  let newPosition := insertPosition existingPositions
  { unit with columns := unit.columns ++ [⟨newId, newPosition, 2⟩] }

/-- An axis-aligned box of the derived geometry: `boxGeometry args` sizes
together with the box centre in the unit's global frame. -/
structure Box where
  sizeX : ℚ
  sizeY : ℚ
  sizeZ : ℚ
  posX : ℚ
  posY : ℚ
  posZ : ℚ
  deriving DecidableEq

/-- The geometry derived for one shelf by `ShelvingUnitModel` +
`ShelfWithDivisions`: the group sits at `y = −height/2 + position·height`,
the main board is `boxGeometry [width − 2t, t, depth − 2t]` at the group
origin, and for `divisions > 1` each division `i = 1..divisions−1` is a
`boxGeometry [t, t, depth − 2t]` at local `x = −w/2 + i·(w/divisions)`
where `w = width − 2t` is the width handed to `ShelfWithDivisions`. -/
def shelfBoards (width height depth thickness : ℚ) (shelf : Shelf) : Box × List Box :=
  let yPosition := -height / 2 + shelf.position * height
  let w := width - thickness * 2
  let d := depth - thickness * 2
  let main : Box := ⟨w, thickness, d, 0, yPosition, 0⟩
  let divisionBoxes :=
    if shelf.divisions > 1 then
      (List.range (shelf.divisions - 1)).map fun (i : ℕ) =>
        let divisionX := -w / 2 + ((i : ℚ) + 1) * (w / (shelf.divisions : ℚ))
        (⟨thickness, thickness, d, divisionX, yPosition, 0⟩ : Box)
    else []
  (main, divisionBoxes)

/-- The geometry derived for one column by `ShelvingUnitModel` +
`ColumnWithDivisions`: the group sits at `x = −width/2 + position·width`
centred vertically, the main board is `boxGeometry [t, height, depth − 2t]`
(full height — the documented fix), and for `divisions > 1` each division
is a `boxGeometry [t, t, depth − 2t]` at local
`y = −height/2 + i·(height/divisions)`. -/
def columnBoards (width height depth thickness : ℚ) (column : Column) : Box × List Box :=
  let xPosition := -width / 2 + column.position * width
  let d := depth - thickness * 2
  let main : Box := ⟨thickness, height, d, xPosition, 0, 0⟩
  let divisionBoxes :=
    if column.divisions > 1 then
      (List.range (column.divisions - 1)).map fun (i : ℕ) =>
        let divisionY := -height / 2 + ((i : ℚ) + 1) * (height / (column.divisions : ℚ))
        (⟨thickness, thickness, d, xPosition, divisionY, 0⟩ : Box)
    else []
  (main, divisionBoxes)

/-- The "basic" preset with the default dimensions of the main component. -/
def basicUnit : ShelvingUnitState :=
  { width := 3, height := 2, depth := 1, thickness := 1/20
    shelves := [⟨"s1", 1/2, 2⟩]
    columns := [⟨"c1", 1/2, 1⟩]
    showWireframe := false, showDimensions := true
    viewMode := "3d", material := "wood" }

/-- The fixed abstract-unit-to-millimeter scale constant `UNIT_TO_MM`. -/
def UNIT_TO_MM : ℝ := 1000

/-- A `THREE.Vector3`. -/
structure Vec3 where
  x : ℝ
  y : ℝ
  z : ℝ

/-- Componentwise vector addition (`Vector3.add`). -/
noncomputable def vadd (a b : Vec3) : Vec3 := ⟨a.x + b.x, a.y + b.y, a.z + b.z⟩

/-- Scalar multiplication (`Vector3.multiplyScalar`). -/
noncomputable def vscale (s : ℝ) (v : Vec3) : Vec3 := ⟨s * v.x, s * v.y, s * v.z⟩

/-- Vector length (`Vector3.length`). -/
noncomputable def vlength (v : Vec3) : ℝ := Real.sqrt (v.x ^ 2 + v.y ^ 2 + v.z ^ 2)

/-- Normalisation (`Vector3.normalize`): divide by the length.  (For the zero vector the
source divides by 1 and Lean divides by 0; both give the zero vector.) -/
noncomputable def vnormalize (v : Vec3) : Vec3 :=
  ⟨v.x / vlength v, v.y / vlength v, v.z / vlength v⟩

/-- Euclidean distance (`Vector3.distanceTo`). -/
noncomputable def vdist (a b : Vec3) : ℝ :=
  Real.sqrt ((b.x - a.x) ^ 2 + (b.y - a.y) ^ 2 + (b.z - a.z) ^ 2)

/-- The label value computed by `DimensionLine`:
`offsetVec = normalize(offsetDirection) * offset`,
`startPoint = start + offsetVec`, `endPoint = end + offsetVec`,
`displayValue = Math.round(startPoint.distanceTo(endPoint) * UNIT_TO_MM)`. -/
noncomputable def dimensionLabelValue (start finish : Vec3) (offset : ℝ)
    (offsetDirection : Vec3) : ℤ :=
  let offsetVec := vscale offset (vnormalize offsetDirection)
  let startPoint := vadd start offsetVec
  let endPoint := vadd finish offsetVec
  let length := vdist startPoint endPoint * UNIT_TO_MM
  round length

/-- Zero-pad a digit string on the left to the given length. -/
def padZeros (len : ℕ) (s : String) : String :=
  String.mk (List.replicate (len - s.length) '0') ++ s

/-- Rendering `Number.prototype.toFixed(digits)` for a nonnegative rational: the
integer `n` closest to `x·10^digits` (ties to the larger `n`), rendered
with `digits` decimals. -/
def toFixedNonneg (digits : ℕ) (x : ℚ) : String :=
  let n := (round (x * (10 : ℚ) ^ digits)).toNat
  if digits = 0 then toString n
  else
    let base := 10 ^ digits
    toString (n / base) ++ "." ++ padZeros digits (toString (n % base))

/-- Rendering `Number.prototype.toFixed(digits)`: sign first, then the nonnegative
rendering, as the ECMA algorithm does. -/
def toFixed (digits : ℕ) (x : ℚ) : String :=
  if x < 0 then "-" ++ toFixedNonneg digits (-x) else toFixedNonneg digits x

/-- Exporter `createDesignSpec(unit)` of the minimal exporter, with the
nondeterministic `new Date().toLocaleString()` passed in as `generatedAt`. -/
def createDesignSpec (unit : ShelvingUnitState) (generatedAt : String) : String :=
  "Shelving Unit Design Specifications\n=============================\n\nDIMENSIONS\nWidth: "
  ++ toFixed 2 unit.width ++ " units\nHeight: "
  ++ toFixed 2 unit.height ++ " units\nDepth: "
  ++ toFixed 2 unit.depth ++ " units\nMaterial thickness: "
  ++ toFixed 2 unit.thickness ++ " units\nMaterial: "
  ++ unit.material ++ "\n\nSHELVES ("
  ++ toString unit.shelves.length ++ ")\n"
  ++ String.intercalate "\n" (unit.shelves.enum.map fun p =>
      "Shelf " ++ toString (p.1 + 1) ++ ": Position "
      ++ toFixed 0 (p.2.position * 100) ++ "% from bottom, "
      ++ toString p.2.divisions ++ " divisions")
  ++ "\n\nCOLUMNS ("
  ++ toString unit.columns.length ++ ")\n"
  ++ String.intercalate "\n" (unit.columns.enum.map fun p =>
      "Column " ++ toString (p.1 + 1) ++ ": Position "
      ++ toFixed 0 (p.2.position * 100) ++ "% from left, "
      ++ toString p.2.divisions ++ " divisions")
  ++ "\n\nGenerated: " ++ generatedAt ++ "\n"

/-- Substring test on character lists, used to state facts about the
content of the exported report. -/
def charsContain (pattern : List Char) : List Char → Bool
  | [] => pattern.isPrefixOf []
  | a :: rest => pattern.isPrefixOf (a :: rest) || charsContain pattern rest

end Shelving

namespace Shelving

/-! Helper lemmas about the division cascade and the gap scan. -/

/-- The cascading lets of `resolveDivisions` as one nested conditional. -/
lemma resolveDivisions_eq (d : ℚ) :
    resolveDivisions d =
      if 20/100 < d then 5
      else if 15/100 < d then 4
      else if 10/100 < d then 3
      else if 5/100 < d then 2
      else 1 := rfl

lemma resolveDivisions_mono {d e : ℚ} (h : d ≤ e) :
    resolveDivisions d ≤ resolveDivisions e := by
  rw [resolveDivisions_eq, resolveDivisions_eq]
  split_ifs <;> first | rfl | (exfalso; linarith) | norm_num

lemma resolveDivisions_le_five (d : ℚ) : resolveDivisions d ≤ 5 := by
  rw [resolveDivisions_eq]
  split_ifs <;> norm_num

lemma handleShelfDrag_shelves (s : DragSession) (u : ShelvingUnitState)
    (id : String) (y : ℚ) :
    (handleShelfDrag s u id y).2.shelves =
      u.shelves.map (fun sh => if sh.id = id then
        { sh with position := y,
                  divisions := resolveDivisions |y - jsOrElse (s id) sh.position| }
        else sh) := rfl

lemma handleColumnDrag_columns (s : DragSession) (u : ShelvingUnitState)
    (id : String) (x : ℚ) :
    (handleColumnDrag s u id x).2.columns =
      u.columns.map (fun c => if c.id = id then
        { c with position := x,
                 divisions := resolveDivisions |x - jsOrElse (s id) c.position| }
        else c) := rfl

/-- Claim C1: for every drag update of a shelf or column the stored division
count is `resolveDivisions` of the drag distance `|currentPosition −
baseline|`, and `resolveDivisions` realises exactly the fixed thresholds
`d ≤ 0.05 → 1`, `(0.05, 0.10] → 2`, `(0.10, 0.15] → 3`, `(0.15, 0.20] → 4`,
`> 0.20 → 5` (strict comparisons, so `d = 0.05` gives 1), is monotone
non-decreasing and is capped at 5. -/
theorem claim_C1 :
    (∀ d : ℚ,
      (d ≤ 5/100 → resolveDivisions d = 1)
      ∧ (5/100 < d → d ≤ 10/100 → resolveDivisions d = 2)
      ∧ (10/100 < d → d ≤ 15/100 → resolveDivisions d = 3)
      ∧ (15/100 < d → d ≤ 20/100 → resolveDivisions d = 4)
      ∧ (20/100 < d → resolveDivisions d = 5))
    ∧ resolveDivisions (5/100) = 1
    ∧ (∀ d e : ℚ, d ≤ e → resolveDivisions d ≤ resolveDivisions e)
    ∧ (∀ d : ℚ, resolveDivisions d ≤ 5)
    ∧ (∀ s u id y, (handleShelfDrag s u id y).2.shelves =
        u.shelves.map (fun sh => if sh.id = id then
          { sh with position := y,
                    divisions := resolveDivisions |y - jsOrElse (s id) sh.position| }
          else sh))
    ∧ (∀ s u id x, (handleColumnDrag s u id x).2.columns =
        u.columns.map (fun c => if c.id = id then
          { c with position := x,
                   divisions := resolveDivisions |x - jsOrElse (s id) c.position| }
          else c)) := by
  refine ⟨?_, ?_, fun d e h => resolveDivisions_mono h, resolveDivisions_le_five,
    handleShelfDrag_shelves, handleColumnDrag_columns⟩
  · intro d
    refine ⟨?_, ?_, ?_, ?_, ?_⟩ <;>
      · intros
        rw [resolveDivisions_eq]
        split_ifs <;> first | rfl | (exfalso; linarith)
  · norm_num [resolveDivisions]

/-- Witness for C1 at concrete inputs: distances 0.05, 0.07, 0.23 land in
the stated buckets, and monotonicity holds at 0.01 ≤ 0.02. -/
theorem claim_C1_witness :
    resolveDivisions (5/100) = 1
    ∧ ((5:ℚ)/100 < 7/100 ∧ (7:ℚ)/100 ≤ 10/100 ∧ resolveDivisions (7/100) = 2)
    ∧ ((20:ℚ)/100 < 23/100 ∧ resolveDivisions (23/100) = 5)
    ∧ ((1:ℚ)/100 ≤ 2/100 ∧ resolveDivisions (1/100) ≤ resolveDivisions (2/100)) :=
  ⟨claim_C1.2.1,
   ⟨by norm_num, by norm_num,
    (claim_C1.1 (7/100)).2.1 (by norm_num) (by norm_num)⟩,
   ⟨by norm_num, (claim_C1.1 (23/100)).2.2.2.2 (by norm_num)⟩,
   ⟨by norm_num, claim_C1.2.2.1 (1/100) (2/100) (by norm_num)⟩⟩

end Shelving

namespace Shelving

/-- Claim C2 counterexample: dragging the basic preset's shelf to
`currentPosition = 1.5` stores position `1.5`, which is outside `[0,1]` —
the 3D drag resolver performs no clamping before storing. -/
theorem claim_C2_counterexample :
    ((handleShelfDrag (fun _ => none) basicUnit "s1" (3/2)).2.shelves.map
      Shelf.position = [3/2])
    ∧ ¬ ((3:ℚ)/2 ≤ 1) := by
  constructor
  · norm_num [handleShelfDrag, basicUnit, jsTruthy, jsOrElse, shelfBaselineRecord,
      resolveDivisions]
  · norm_num

/-- Claim C2 as amended: the 3D shelf/column drag handlers store the raw
incoming `currentPosition` without clamping (so a stored position stays in
`[0,1]` only when the incoming positions do), while the divider-based 2D
variant clamps the stored divider position to `[0.1, 0.9] ⊆ [0,1]`. -/
theorem claim_C2_amended :
    (∀ s u id y, (handleShelfDrag s u id y).2.shelves.map Shelf.position =
      u.shelves.map (fun sh => if sh.id = id then y else sh.position))
    ∧ (∀ s u id x, (handleColumnDrag s u id x).2.columns.map Column.position =
      u.columns.map (fun c => if c.id = id then x else c.position))
    ∧ (∀ dividers id y, (handleDividerDrag dividers id y).map Divider.position =
      dividers.map (fun d => if d.id = id then max (1/10) (min (9/10) y) else d.position))
    ∧ (∀ y : ℚ, 0 ≤ max (1/10) (min (9/10) y) ∧ max (1/10) (min (9/10) y) ≤ 1)
    ∧ (∀ s u id y, 0 ≤ y → y ≤ 1 →
        (∀ sh ∈ u.shelves, 0 ≤ sh.position ∧ sh.position ≤ 1) →
        ∀ sh' ∈ (handleShelfDrag s u id y).2.shelves,
          0 ≤ sh'.position ∧ sh'.position ≤ 1) := by
  refine ⟨?_, ?_, ?_, ?_, ?_⟩
  · intro s u id y
    rw [handleShelfDrag_shelves, List.map_map]
    congr 1
    funext sh
    by_cases hsh : sh.id = id <;> simp [hsh]
  · intro s u id x
    rw [handleColumnDrag_columns, List.map_map]
    congr 1
    funext c
    by_cases hc : c.id = id <;> simp [hc]
  · intro dividers id y
    rw [handleDividerDrag, List.map_map]
    congr 1
    funext d
    by_cases hd : d.id = id <;> simp [hd]
  · intro y
    constructor
    · exact le_trans (by norm_num) (le_max_left _ _)
    · exact max_le (by norm_num) (le_trans (min_le_left _ _) (by norm_num))
  · intro s u id y hy0 hy1 hall sh' hsh'
    rw [handleShelfDrag_shelves] at hsh'
    obtain ⟨sh, hsh, rfl⟩ := List.mem_map.mp hsh'
    by_cases hid : sh.id = id
    · rw [if_pos hid]
      exact ⟨hy0, hy1⟩
    · rw [if_neg hid]
      exact hall sh hsh

/-- Witness for the amended C2 at concrete inputs: a drag of the basic
preset's shelf to 0.75 keeps every stored position in `[0,1]`, and the
divider clamp maps 2 into `[0,1]`. -/
theorem claim_C2_witness :
    ((0:ℚ) ≤ 3/4 ∧ (3:ℚ)/4 ≤ 1
      ∧ (∀ sh ∈ basicUnit.shelves, 0 ≤ sh.position ∧ sh.position ≤ 1)
      ∧ ∀ sh' ∈ (handleShelfDrag (fun _ => none) basicUnit "s1" (3/4)).2.shelves,
          0 ≤ sh'.position ∧ sh'.position ≤ 1)
    ∧ (0 ≤ max (1/10) (min (9/10) (2:ℚ)) ∧ max (1/10) (min (9/10) (2:ℚ)) ≤ 1) := by
  have hall : ∀ sh ∈ basicUnit.shelves, 0 ≤ sh.position ∧ sh.position ≤ 1 := by
    intro sh hsh
    rcases List.mem_singleton.mp hsh with rfl
    norm_num
  exact ⟨⟨by norm_num, by norm_num, hall,
    claim_C2_amended.2.2.2.2 (fun _ => none) basicUnit "s1" (3/4)
      (by norm_num) (by norm_num) hall⟩,
    claim_C2_amended.2.2.2.1 2⟩

end Shelving

namespace Shelving

lemma stepGap_fst_le (b c : ℚ × ℚ) : b.1 ≤ (stepGap b c).1 := by
  unfold stepGap
  split
  · linarith
  · exact le_refl _

lemma foldl_stepGap_fst_le (l : List (ℚ × ℚ)) (b : ℚ × ℚ) :
    b.1 ≤ (l.foldl stepGap b).1 := by
  induction l generalizing b with
  | nil => exact le_refl _
  | cons a t ih => exact le_trans (stepGap_fst_le b a) (ih (stepGap b a))

lemma foldl_stepGap_sync (l : List (ℚ × ℚ)) (s0 : ℚ × ℚ) (hs : s0.1 ≤ 0)
    (hl : ∃ c ∈ l, 0 < c.1) :
    l.foldl stepGap ((0 : ℚ), (1 : ℚ)/2) = l.foldl stepGap s0 := by
  induction l generalizing s0 with
  | nil => simp at hl
  | cons a t ih =>
    by_cases ha : 0 < a.1
    · have h1 : stepGap ((0 : ℚ), (1 : ℚ)/2) a = a := by
        unfold stepGap
        rw [if_pos (by simpa using ha)]
      have h2 : stepGap s0 a = a := by
        unfold stepGap
        rw [if_pos (by change s0.1 < a.1; linarith)]
      rw [List.foldl_cons, List.foldl_cons, h1, h2]
    · obtain ⟨c, hc, hcpos⟩ := hl
      rcases List.mem_cons.mp hc with rfl | hc'
      · exact absurd hcpos ha
      · have h1 : stepGap ((0 : ℚ), (1 : ℚ)/2) a = ((0 : ℚ), (1 : ℚ)/2) := by
          unfold stepGap
          rw [if_neg (by simpa using ha)]
        have h2 : (stepGap s0 a).1 ≤ 0 := by
          unfold stepGap
          split
          · linarith [not_lt.mp ha]
          · exact hs
        rw [List.foldl_cons, List.foldl_cons, h1]
        exact ih (stepGap s0 a) h2 ⟨c, hc', hcpos⟩

lemma foldl_stepGap_stall (l : List (ℚ × ℚ)) (b : ℚ × ℚ)
    (h : ∀ c ∈ l, c.1 ≤ b.1) : l.foldl stepGap b = b := by
  induction l with
  | nil => rfl
  | cons a t ih =>
    have ha : stepGap b a = b := by
      unfold stepGap
      rw [if_neg (not_lt.mpr (h a (List.mem_cons_self a t)))]
    rw [List.foldl_cons, ha]
    exact ih (fun c hc => h c (List.mem_cons_of_mem a hc))

lemma foldl_stepGap_nonpos (l : List (ℚ × ℚ)) (b : ℚ × ℚ) (hb : b.1 ≤ 0)
    (h : ∀ c ∈ l, c.1 ≤ 0) : (l.foldl stepGap b).1 ≤ 0 := by
  induction l generalizing b with
  | nil => exact hb
  | cons a t ih =>
    rw [List.foldl_cons]
    refine ih (stepGap b a) ?_ (fun c hc => h c (List.mem_cons_of_mem a hc))
    unfold stepGap
    split
    · exact h a (List.mem_cons_self a t)
    · exact hb

lemma listSumNonpos : ∀ l : List ℚ, (∀ x ∈ l, x ≤ 0) → l.sum ≤ 0 := by
  intro l
  induction l with
  | nil => intro _; simp
  | cons a t ih =>
    intro h
    rw [List.sum_cons]
    have := h a (List.mem_cons_self a t)
    have := ih (fun x hx => h x (List.mem_cons_of_mem a hx))
    linarith

lemma interiorCands_sum :
    ∀ (rest : List ℚ) (first : ℚ),
      ((interiorCands (first :: rest)).map Prod.fst).sum
        = (first :: rest).getLast (List.cons_ne_nil first rest) - first := by
  intro rest
  induction rest with
  | nil =>
    intro first
    simp [interiorCands]
  | cons b t ih =>
    intro first
    have hz : interiorCands (first :: b :: t)
        = (b - first, first + (b - first) / 2) :: interiorCands (b :: t) := rfl
    rw [hz, List.map_cons, List.sum_cons, ih b, List.getLast_cons (List.cons_ne_nil b t)]
    ring

lemma stepGap_keep (b : ℚ × ℚ) (w m : ℚ) (h : w ≤ b.1) : stepGap b (w, m) = b := by
  unfold stepGap
  rw [if_neg (not_lt.mpr h)]

lemma stepGap_take (b : ℚ × ℚ) (w m : ℚ) (h : b.1 < w) : stepGap b (w, m) = (w, m) := by
  unfold stepGap
  rw [if_pos h]

lemma insertPosition_eq_spec (l : List ℚ) : insertPosition l = specInsertPosition l := by
  cases l with
  | nil => rfl
  | cons first rest =>
    unfold insertPosition specInsertPosition
    simp only [List.foldl_append, List.foldl_cons, List.foldl_nil]
    by_cases hf : first > 0
    · rw [if_pos hf]
      by_cases hl1 : (first :: rest).getLast (List.cons_ne_nil first rest) < 1
      · rw [if_pos hl1]
      · rw [if_neg hl1]
        have hA : (0:ℚ) ≤ ((interiorCands (first :: rest)).foldl stepGap (first, first / 2)).1 :=
          le_trans (le_of_lt hf) (foldl_stepGap_fst_le _ _)
        rw [stepGap_keep _ _ _ (by push_neg at hl1; linarith)]
    · rw [if_neg hf]
      push_neg at hf
      by_cases hpos : ∃ c ∈ interiorCands (first :: rest), 0 < c.1
      · have hsync := foldl_stepGap_sync (interiorCands (first :: rest)) (first, first / 2)
          (by simpa using hf) hpos
        rw [hsync]
        have hA : (0:ℚ) ≤ ((interiorCands (first :: rest)).foldl stepGap (first, first / 2)).1 := by
          rw [← hsync]
          simpa using foldl_stepGap_fst_le (interiorCands (first :: rest)) ((0:ℚ), (1:ℚ)/2)
        by_cases hl1 : (first :: rest).getLast (List.cons_ne_nil first rest) < 1
        · rw [if_pos hl1]
        · rw [if_neg hl1]
          rw [stepGap_keep _ _ _ (by push_neg at hl1; linarith)]
      · push_neg at hpos
        have hstall := foldl_stepGap_stall (interiorCands (first :: rest)) ((0:ℚ), (1:ℚ)/2)
          (fun c hc => hpos c hc)
        have hsum := interiorCands_sum rest first
        have hsum_le : ((interiorCands (first :: rest)).map Prod.fst).sum ≤ 0 :=
          listSumNonpos _ (by
            intro x hx
            obtain ⟨c, hc, rfl⟩ := List.mem_map.mp hx
            exact hpos c hc)
        have hlast_le : (first :: rest).getLast (List.cons_ne_nil first rest) ≤ first := by
          linarith [hsum ▸ hsum_le]
        have hlt : (first :: rest).getLast (List.cons_ne_nil first rest) < 1 := by linarith
        rw [if_pos hlt, hstall]
        have hspec_le : ((interiorCands (first :: rest)).foldl stepGap (first, first / 2)).1 ≤ 0 :=
          foldl_stepGap_nonpos _ _ (by simpa using hf) (fun c hc => hpos c hc)
        rw [stepGap_take _ _ _ (by show (0:ℚ) < _; linarith),
            stepGap_take _ _ _ (by linarith)]

/-- Claim C3: the insertion scan of `addShelf`/`addColumn` computes exactly
the midpoint of the first-found widest gap among `[0, first]`, the interior
gaps and `[last, 1]` (0.5 for an empty list); in particular
`insertPosition [0.5] = 0.25` and `insertPosition [0.2, 0.8] = 0.5`, and the
new element is appended with that position and `divisions = 2`. -/
theorem claim_C3 :
    (∀ l : List ℚ, insertPosition l = specInsertPosition l)
    ∧ insertPosition [] = 1/2
    ∧ insertPosition [1/2] = 1/4
    ∧ insertPosition [1/5, 4/5] = 1/2
    ∧ (∀ u newId, (addShelf u newId).shelves =
        u.shelves ++
          [⟨newId, insertPosition ((u.shelves.map Shelf.position).insertionSort (· ≤ ·)), 2⟩])
    ∧ (∀ u newId, (addColumn u newId).columns =
        u.columns ++
          [⟨newId, insertPosition ((u.columns.map Column.position).insertionSort (· ≤ ·)), 2⟩]) := by
  refine ⟨insertPosition_eq_spec, by norm_num [insertPosition],
    by norm_num [insertPosition, interiorCands, stepGap],
    by norm_num [insertPosition, interiorCands, stepGap],
    fun u newId => rfl, fun u newId => rfl⟩

end Shelving

namespace Shelving

/-- The division-box list emitted for a shelf, in closed form. -/
lemma shelfBoards_snd (W h D t : ℚ) (sh : Shelf) :
    (shelfBoards W h D t sh).2 =
      if sh.divisions > 1 then
        (List.range (sh.divisions - 1)).map fun (i : ℕ) =>
          (⟨t, t, D - t * 2,
            -(W - t * 2) / 2 + ((i : ℚ) + 1) * ((W - t * 2) / (sh.divisions : ℚ)),
            -h / 2 + sh.position * h, 0⟩ : Box)
      else [] := by
  unfold shelfBoards
  rfl

lemma shelfBoards_len (W h D t : ℚ) (sh : Shelf) :
    (shelfBoards W h D t sh).2.length = sh.divisions - 1 := by
  rw [shelfBoards_snd]
  split_ifs with hd
  · rw [List.length_map, List.length_range]
  · simp
    omega

/-- Claim C4 counterexample: for the basic dimensions
(`width = 3`, `thickness = 0.05`) and a shelf with 3 divisions, the emitted
division positions are `[-29/60, 29/60]`, not the positions
`-width/2 + k·(width/divisions) = [-1/2, 1/2]` that the claim's formula
(read with the container width) prescribes. -/
theorem claim_C4_counterexample :
    ((shelfBoards 3 2 1 (1/20) ⟨"s1", 1/2, 3⟩).2.map Box.posX = [-29/60, 29/60])
    ∧ ((shelfBoards 3 2 1 (1/20) ⟨"s1", 1/2, 3⟩).2.map Box.posX
        ≠ (List.range 2).map (fun k => -(3:ℚ)/2 + ((k:ℚ) + 1) * (3/3))) := by
  constructor
  · norm_num [shelfBoards, List.range_succ]
  · norm_num [shelfBoards, List.range_succ]

/-- Claim C4 as amended: each shelf's main board is
`(width − 2t) × t × (depth − 2t)` at `y = −height/2 + position·height`, and
for `divisions > 1` exactly `divisions − 1` division boxes of size
`t × t × (depth − 2t)` are emitted at
`x = −width′/2 + k·(width′/divisions)` for `k = 1..divisions−1`, where
`width′ = width − 2·thickness` is the shelf board's own width (not the
container width). -/
theorem claim_C4_amended (W h D t : ℚ) (sh : Shelf) :
    (shelfBoards W h D t sh).1
      = ⟨W - t * 2, t, D - t * 2, 0, -h / 2 + sh.position * h, 0⟩
    ∧ (shelfBoards W h D t sh).2.length = sh.divisions - 1
    ∧ ∀ k (hk : k < (shelfBoards W h D t sh).2.length),
        (shelfBoards W h D t sh).2.get ⟨k, hk⟩ =
          ⟨t, t, D - t * 2,
            -(W - t * 2) / 2 + ((k : ℚ) + 1) * ((W - t * 2) / (sh.divisions : ℚ)),
            -h / 2 + sh.position * h, 0⟩ := by
  refine ⟨rfl, shelfBoards_len W h D t sh, ?_⟩
  intro k hk
  have hd : sh.divisions > 1 := by
    by_contra hcon
    rw [shelfBoards_len] at hk
    omega
  have hs : (shelfBoards W h D t sh).2 =
      (List.range (sh.divisions - 1)).map fun (i : ℕ) =>
        (⟨t, t, D - t * 2,
          -(W - t * 2) / 2 + ((i : ℚ) + 1) * ((W - t * 2) / (sh.divisions : ℚ)),
          -h / 2 + sh.position * h, 0⟩ : Box) := by
    rw [shelfBoards_snd, if_pos hd]
  rw [List.get_of_eq hs]
  simp only [List.get_eq_getElem, List.getElem_map, List.getElem_range, Fin.coe_cast]

/-- Witness for the amended C4: basic dimensions, shelf at 0.5 with 3
divisions — the first division box sits at `x = -29/60`. -/
theorem claim_C4_witness :
    (shelfBoards 3 2 1 (1/20) ⟨"s1", 1/2, 3⟩).2.get
        ⟨0, by rw [shelfBoards_len]; decide⟩ =
      ⟨1/20, 1/20, 1 - (1/20) * 2,
        -(3 - (1/20) * 2) / 2 + ((0 : ℚ) + 1) * ((3 - (1/20) * 2) / ((3:ℕ) : ℚ)),
        -2 / 2 + (1/2) * 2, 0⟩ :=
  (claim_C4_amended 3 2 1 (1/20) ⟨"s1", 1/2, 3⟩).2.2 0 _

/-- Claim C5: each column's main board is a `thickness × height ×
(depth − 2·thickness)` box (the full container height, not reduced by
`2·thickness`), centred vertically, at `x = −width/2 + position·width`. -/
theorem claim_C5 (W h D t : ℚ) (col : Column) :
    (columnBoards W h D t col).1
      = ⟨t, h, D - t * 2, -W / 2 + col.position * W, 0, 0⟩ := rfl

end Shelving

namespace Shelving

/-- Claim C6: the dimension-annotation label value equals
`round(distance(startPoint, endPoint) · 1000)` where the two points are the
anchors displaced by `normalize(offsetDirection) · offset`; in particular
for `start = (0,0,0)`, `end = (1,0,0)`, `offset = 0` the label value is
1000. -/
theorem claim_C6 :
    (∀ (s e : Vec3) (o : ℝ) (dir : Vec3),
      dimensionLabelValue s e o dir =
        round (vdist (vadd s (vscale o (vnormalize dir)))
          (vadd e (vscale o (vnormalize dir))) * 1000))
    ∧ dimensionLabelValue ⟨0,0,0⟩ ⟨1,0,0⟩ 0 ⟨0,0,1⟩ = 1000 := by
  refine ⟨fun s e o dir => rfl, ?_⟩
  norm_num [dimensionLabelValue, vdist, vadd, vscale, vnormalize, vlength, UNIT_TO_MM,
    Real.sqrt_one]

/-- Claim C7: `handleDragEnd` unconditionally empties the session map and
leaves the unit state untouched; consequently in the end-to-end scenario —
basic preset, shelf dragged from 0.5 to 0.73 (divisions 5), released, then
moved by 0.03 — the second gesture starts from the fresh baseline 0.73 and
yields divisions 1. -/
theorem claim_C7 :
    (∀ (s : DragSession) (u : ShelvingUnitState), handleDragEnd s u = (fun _ => none, u))
    ∧ ((handleShelfDrag (fun _ => none) basicUnit "s1" (73/100)).2.shelves.map
        Shelf.divisions = [5])
    ∧ (let st1 := handleShelfDrag (fun _ => none) basicUnit "s1" (73/100)
       let st2 := handleDragEnd st1.1 st1.2
       let st3 := handleShelfDrag st2.1 st2.2 "s1" (76/100)
       st3.2.shelves.map Shelf.divisions = [1]
       ∧ st3.2.shelves.map Shelf.position = [76/100]
       ∧ st3.2.columns = basicUnit.columns) := by
  refine ⟨fun s u => rfl, ?_, ?_⟩
  · norm_num [handleShelfDrag, basicUnit, jsTruthy, jsOrElse, shelfBaselineRecord,
      resolveDivisions, abs_of_nonneg]
  · norm_num [handleShelfDrag, handleDragEnd, basicUnit, jsTruthy, jsOrElse,
      shelfBaselineRecord, resolveDivisions, abs_of_nonneg]

/-- Claim C8: a drag update for an id with no recorded baseline treats the
baseline as the element's current stored position (so an update equal to
the current position gives distance 0 and divisions 1), for shelves and
columns alike, and is total — the element list is preserved, never an
error. -/
theorem claim_C8 (s : DragSession) (u : ShelvingUnitState) (id : String) (y x : ℚ)
    (h : s id = none) :
    ((handleShelfDrag s u id y).2.shelves =
      u.shelves.map (fun sh => if sh.id = id then
        { sh with position := y, divisions := resolveDivisions |y - sh.position| }
        else sh))
    ∧ ((handleColumnDrag s u id x).2.columns =
      u.columns.map (fun c => if c.id = id then
        { c with position := x, divisions := resolveDivisions |x - c.position| }
        else c))
    ∧ (∀ p : ℚ, resolveDivisions |p - p| = 1)
    ∧ (handleShelfDrag s u id y).2.shelves.length = u.shelves.length := by
  refine ⟨?_, ?_, ?_, ?_⟩
  · rw [handleShelfDrag_shelves]
    simp only [h, jsOrElse]
  · rw [handleColumnDrag_columns]
    simp only [h, jsOrElse]
  · intro p
    rw [sub_self, abs_zero]
    norm_num [resolveDivisions]
  · rw [handleShelfDrag_shelves, List.length_map]

/-- Witness for C8: the basic preset's shelf, updated with an empty session
map to its own current position 0.5, keeps position 0.5 and gets
divisions 1. -/
theorem claim_C8_witness :
    ((fun _ => none : DragSession) "s1" = none)
    ∧ (handleShelfDrag (fun _ => none) basicUnit "s1" (1/2)).2.shelves =
        basicUnit.shelves.map (fun sh => if sh.id = "s1" then
          { sh with position := (1/2 : ℚ),
                    divisions := resolveDivisions |(1/2 : ℚ) - sh.position| }
          else sh) :=
  ⟨rfl, (claim_C8 (fun _ => none) basicUnit "s1" (1/2) (1/2) rfl).1⟩

end Shelving

namespace Shelving

/-- Claim C10: a recorded baseline of 0 is indistinguishable from a missing
session entry — the drag distance is computed against the element's current
stored position, the resulting unit state equals the one produced with the
entry erased, the existence test re-records the baseline as if absent, and
an element missing from the state list records baseline 0 via `|| 0`. -/
theorem claim_C10 (s : DragSession) (u : ShelvingUnitState) (id : String) (y : ℚ)
    (h : s id = some 0) :
    ((handleShelfDrag s u id y).2.shelves =
      u.shelves.map (fun sh => if sh.id = id then
        { sh with position := y, divisions := resolveDivisions |y - sh.position| }
        else sh))
    ∧ ((handleShelfDrag s u id y).2 =
        (handleShelfDrag (fun k => if k = id then none else s k) u id y).2)
    ∧ ((handleShelfDrag s u id y).1 =
        fun k => if k = id then some (shelfBaselineRecord u id) else s k)
    ∧ ((handleColumnDrag s u id y).2.columns =
      u.columns.map (fun c => if c.id = id then
        { c with position := y, divisions := resolveDivisions |y - c.position| }
        else c))
    ∧ (∀ (u' : ShelvingUnitState) (id' : String),
        u'.shelves.find? (fun sh => sh.id == id') = none →
        shelfBaselineRecord u' id' = 0) := by
  refine ⟨?_, ?_, ?_, ?_, ?_⟩
  · rw [handleShelfDrag_shelves]
    simp [h, jsOrElse]
  · simp only [handleShelfDrag, h, jsOrElse, if_pos rfl]
    norm_num
  · simp only [handleShelfDrag, h, jsTruthy]
    norm_num
  · rw [handleColumnDrag_columns]
    simp [h, jsOrElse]
  · intro u' id' hfind
    unfold shelfBaselineRecord
    rw [hfind]

/-- Witness for C10: a session map recording baseline 0 for the basic
preset's shelf behaves exactly as an empty one — an update to the current
position 0.5 computes its distance against 0.5, not 0. -/
theorem claim_C10_witness :
    ((fun k => if k = "s1" then some (0:ℚ) else none : DragSession) "s1" = some 0)
    ∧ (handleShelfDrag (fun k => if k = "s1" then some (0:ℚ) else none)
        basicUnit "s1" (1/2)).2.shelves =
      basicUnit.shelves.map (fun sh => if sh.id = "s1" then
        { sh with position := (1/2 : ℚ),
                  divisions := resolveDivisions |(1/2 : ℚ) - sh.position| }
        else sh) :=
  ⟨by simp,
   (claim_C10 (fun k => if k = "s1" then some (0:ℚ) else none) basicUnit "s1" (1/2)
     (by simp)).1⟩

end Shelving

namespace Shelving

set_option maxRecDepth 8000 in
/-- Claim C9 counterexample: the exported report for the basic preset
(width 3 units) prints "Width: 3.00 units" — the raw abstract-unit value —
and the millimeter value 3000 that the ×1000 conversion would produce
appears nowhere in the text. -/
theorem claim_C9_counterexample :
    createDesignSpec basicUnit "TS" =
      "Shelving Unit Design Specifications\n=============================\n\nDIMENSIONS\nWidth: 3.00 units\nHeight: 2.00 units\nDepth: 1.00 units\nMaterial thickness: 0.05 units\nMaterial: wood\n\nSHELVES (1)\nShelf 1: Position 50% from bottom, 2 divisions\n\nCOLUMNS (1)\nColumn 1: Position 50% from left, 1 divisions\n\nGenerated: TS\n"
    ∧ charsContain "3000".toList ((createDesignSpec basicUnit "TS").toList) = false
    ∧ charsContain "Width: 3.00 units".toList
        ((createDesignSpec basicUnit "TS").toList) = true := by
  have heq : createDesignSpec basicUnit "TS" =
      "Shelving Unit Design Specifications\n=============================\n\nDIMENSIONS\nWidth: 3.00 units\nHeight: 2.00 units\nDepth: 1.00 units\nMaterial thickness: 0.05 units\nMaterial: wood\n\nSHELVES (1)\nShelf 1: Position 50% from bottom, 2 divisions\n\nCOLUMNS (1)\nColumn 1: Position 50% from left, 1 divisions\n\nGenerated: TS\n" := by
    norm_num [createDesignSpec, basicUnit, toFixed, toFixedNonneg, round_eq]
    decide
  refine ⟨heq, ?_, ?_⟩ <;> rw [heq] <;> decide

/-- Claim C9 as amended: the exported report lists the four dimensions in
abstract units formatted with two decimals (no millimeter conversion), the
material name, one line per shelf and per column stating its percentage
position and division count, and the generation timestamp. -/
theorem claim_C9_amended (u : ShelvingUnitState) (ts : String) :
    createDesignSpec u ts =
      "Shelving Unit Design Specifications\n=============================\n\nDIMENSIONS\nWidth: "
      ++ toFixed 2 u.width ++ " units\nHeight: "
      ++ toFixed 2 u.height ++ " units\nDepth: "
      ++ toFixed 2 u.depth ++ " units\nMaterial thickness: "
      ++ toFixed 2 u.thickness ++ " units\nMaterial: "
      ++ u.material ++ "\n\nSHELVES ("
      ++ toString u.shelves.length ++ ")\n"
      ++ String.intercalate "\n" (u.shelves.enum.map fun p =>
          "Shelf " ++ toString (p.1 + 1) ++ ": Position "
          ++ toFixed 0 (p.2.position * 100) ++ "% from bottom, "
          ++ toString p.2.divisions ++ " divisions")
      ++ "\n\nCOLUMNS ("
      ++ toString u.columns.length ++ ")\n"
      ++ String.intercalate "\n" (u.columns.enum.map fun p =>
          "Column " ++ toString (p.1 + 1) ++ ": Position "
          ++ toFixed 0 (p.2.position * 100) ++ "% from left, "
          ++ toString p.2.divisions ++ " divisions")
      ++ "\n\nGenerated: " ++ ts ++ "\n"
    ∧ (u.shelves.enum.map fun p =>
        "Shelf " ++ toString (p.1 + 1) ++ ": Position "
        ++ toFixed 0 (p.2.position * 100) ++ "% from bottom, "
        ++ toString p.2.divisions ++ " divisions").length = u.shelves.length
    ∧ (u.columns.enum.map fun p =>
        "Column " ++ toString (p.1 + 1) ++ ": Position "
        ++ toFixed 0 (p.2.position * 100) ++ "% from left, "
        ++ toString p.2.divisions ++ " divisions").length = u.columns.length := by
  refine ⟨rfl, ?_, ?_⟩ <;> rw [List.length_map, List.enum_length]

end Shelving
